import Mathlib

/-!
Verification of the delayed-vessel-reporter pipeline (delay_report.py).

The definitions below are a shallow embedding of the program's core:
the per-carrier extraction protocol (prepare / call_api / extract), the
on-disk response cache keyed by carrier and route, the location
resolution step, the composite-key merge back into the master delay
sheet, the delta computation and the bill-of-lading masking rule, and
the orchestration in DelayReport.run and the module main block.

Dates are modelled as integer day numbers (days since the civil epoch
1970-01-01, via the standard days-from-civil algorithm), matching the
day-granularity arithmetic performed by the source after it normalizes
all date columns.  Pandas data frames are modelled as lists of
(index, row) pairs; NaN / NaT cells are modelled with Option.
-/

/-- Day number of a civil date (days since 1970-01-01), the standard
days-from-civil algorithm.  Used to state concrete-date scenarios. -/
def daysFromCivil (y : Int) (m d : Nat) : Int :=
  let yAdj : Int := if m ≤ 2 then y - 1 else y
  let era : Int := (if 0 ≤ yAdj then yAdj else yAdj - 399) / 400
  let yoe : Int := yAdj - era * 400
  let mp : Int := if m ≤ 2 then (m : Int) + 9 else (m : Int) - 3
  let doy : Int := (153 * mp + 2) / 5 + (d : Int) - 1
  let doe : Int := yoe * 365 + yoe / 4 - yoe / 100 + doy
  era * 146097 + doe - 719468

/-- Canonical extracted fact assembled by every extractor's extract
method: one row of its response_df.  Field names follow the response_df
columns (pol_name, pod_name, Vessel, Voyage, updated_etd, updated_eta),
with the two date columns as day numbers. -/
structure ScheduleRecord where
  pol : String
  pod : String
  vessel : String
  voyage : String
  etd : Int
  eta : Int
deriving DecidableEq

/-- The composite merge key used by every extractor:
(pol_name, pod_name, Vessel, Voyage). -/
def recKey (r : ScheduleRecord) : String × String × String × String :=
  (r.pol, r.pod, r.vessel, r.voyage)

/-- One row of the master delay sheet (Vessel Delay Tracking.xlsx),
restricted to the columns the core pipeline reads or writes.
The five mutable columns added by DelayReport (updated_etd, updated_eta,
the two delay counts) are Option-valued: none models NaN / NaT. -/
structure Row where
  fwdAgent : String
  pol : String
  pod : String
  vessel : String
  voyage : String
  etdDate : Option Int
  disportEta : Option Int
  bolDate : Option Int
  updatedEtd : Option Int
  updatedEta : Option Int
  delayEtd : Option Int
  delayEta : Option Int
deriving DecidableEq

/-- The merge key of a delay-sheet row, aligned with recKey. -/
def rowKey (r : Row) : String × String × String × String :=
  (r.pol, r.pod, r.vessel, r.voyage)

/-! ## DeltaEngine: DelayReport.calculate_deltas and DelayReport.mask_bol -/

/-- Day difference between an updated date and a planned date, as in
(updated - planned).dt.days: NaN (none) when either side is missing. -/
def calcDelta (updated planned : Option Int) : Option Int :=
  match updated, planned with
  | some u, some p => some (u - p)
  | _, _ => none

/-- DelayReport.calculate_deltas, per row: writes the two delay columns
from the updated and planned date columns. -/
def calculateDeltas (r : Row) : Row :=
  { r with delayEtd := calcDelta r.updatedEtd r.etdDate,
           delayEta := calcDelta r.updatedEta r.disportEta }

/-- DelayReport.mask_bol, per row: when the mask_date_if_bol_present
configuration flag is set and the row has a BOL Date, the updated dates
are overwritten with the planned dates and both deltas with zero. -/
def maskBol (maskFlag : Bool) (r : Row) : Row :=
  if maskFlag = true ∧ r.bolDate.isSome then
    { r with updatedEtd := r.etdDate, updatedEta := r.disportEta,
             delayEtd := some 0, delayEta := some 0 }
  else r

/-! ## ReconciliationMerger: the left merge inside each extract method
and the fold back into the master sheet in DelayReport.run -/

/-- The left merge performed at the end of every extract method:
delay_sheet.reset_index().merge(response_df, on=merge_key, how='left')
.set_index('index').  Each sheet row produces one output row per
matching record, or a single row with missing updated dates when no
record matches; the original index is carried through. -/
def mergeLeft (sheet : List (Nat × Row)) (recs : List ScheduleRecord) :
    List (Nat × Row) :=
  sheet.flatMap (fun p =>
    match recs.filter (fun rec => decide (recKey rec = rowKey p.2)) with
    | [] => [(p.1, { p.2 with updatedEtd := none, updatedEta := none })]
    | ms => ms.map (fun rec =>
        (p.1, { p.2 with updatedEtd := some rec.etd, updatedEta := some rec.eta })))

/-- Overwrite semantics of DataFrame.update for one cell: a present
(non-NaN) value in the other frame overwrites, a missing one does not. -/
def overwriteDate (old new : Option Int) : Option Int :=
  match new with
  | some v => some v
  | none => old

/-- Overwrite semantics of DataFrame.update for one aligned row: string
cells are never NaN in the model and are overwritten, Option cells
follow overwriteDate. -/
def updateRow (r s : Row) : Row :=
  { fwdAgent := s.fwdAgent, pol := s.pol, pod := s.pod,
    vessel := s.vessel, voyage := s.voyage,
    etdDate := overwriteDate r.etdDate s.etdDate,
    disportEta := overwriteDate r.disportEta s.disportEta,
    bolDate := overwriteDate r.bolDate s.bolDate,
    updatedEtd := overwriteDate r.updatedEtd s.updatedEtd,
    updatedEta := overwriteDate r.updatedEta s.updatedEta,
    delayEtd := overwriteDate r.delayEtd s.delayEtd,
    delayEta := overwriteDate r.delayEta s.delayEta }

/-- main_delay_sheet.update(extractor.delay_sheet): rows are aligned by
index; rows of the master sheet whose index is absent from the other
frame are untouched. -/
def updateSheet (master sub : List (Nat × Row)) : List (Nat × Row) :=
  master.map (fun p =>
    match sub.lookup p.1 with
    | some s => (p.1, updateRow p.2 s)
    | none => p)

/-- The per-carrier filter applied in every extractor's constructor:
main_delay_sheet.query(Fwd Agent in keys mapping to this carrier),
keeping the original index.  mapping models the Carrier Mapping table
(Fwd Agent to carrier family). -/
def carrierFilter (mapping : List (String × String)) (carrier : String)
    (master : List (Nat × Row)) : List (Nat × Row) :=
  master.filter (fun p => decide (mapping.lookup p.2.fwdAgent = some carrier))

/-- One carrier's merge plus fold-back, as performed by extract followed
by the update call in DelayReport.run. -/
def carrierMergeFold (mapping : List (String × String)) (carrier : String)
    (recs : List ScheduleRecord) (master : List (Nat × Row)) : List (Nat × Row) :=
  updateSheet master (mergeLeft (carrierFilter mapping carrier master) recs)

/-! ## PipelineOrchestrator: DelayReport.run and the module main block -/

/-- DelayReport.run for one carrier: when the run flag for the carrier
is unset the carrier is skipped, otherwise its whole pipeline (resolve,
prepare, call_api, extract, fold-back) executes.  The pipeline is a
function that either yields the updated master sheet or the first
uncaught exception, modelled with Except; run contains no exception
handler. -/
def runCarrier (flag : Bool)
    (pipeline : List (Nat × Row) → Except String (List (Nat × Row)))
    (master : List (Nat × Row)) : Except String (List (Nat × Row)) :=
  if flag then pipeline master else Except.ok master

/-- The module main block: the carriers run sequentially in their fixed
configured order, each through DelayReport.run; an exception raised in
one carrier's pipeline propagates and stops the whole program, so the
final report (the ok value) is only reached when every enabled carrier
succeeded. -/
def runCarriers :
    List (Bool × (List (Nat × Row) → Except String (List (Nat × Row)))) →
    List (Nat × Row) → Except String (List (Nat × Row))
  | [], m => Except.ok m
  | c :: cs, m =>
    match runCarrier c.1 c.2 m with
    | Except.ok m2 => runCarriers cs m2
    | Except.error e => Except.error e

/-! ## Generic list operations shared by the extractors

drop_duplicates keeps the first occurrence of each key and preserves
order; sort_values sorts ascending; Series.unique preserves
first-occurrence order. -/

/-- drop_duplicates over key f, generalized with the set of keys
already seen: keeps the first occurrence of each key, in order. -/
def dedupKeyedAux {α β : Type} [DecidableEq β] (f : α → β)
    (seen : List β) : List α → List α
  | [] => []
  | x :: xs =>
    if f x ∈ seen then dedupKeyedAux f seen xs
    else x :: dedupKeyedAux f (f x :: seen) xs

/-- DataFrame.drop_duplicates(key): first occurrence per key. -/
def dedupKeyed {α β : Type} [DecidableEq β] (f : α → β) (l : List α) : List α :=
  dedupKeyedAux f [] l

/-- Insertion step of the sort used to model sort_values. -/
def insertLe {α : Type} (le : α → α → Bool) (x : α) : List α → List α
  | [] => [x]
  | y :: ys => if le x y then x :: y :: ys else y :: insertLe le x ys

/-- sort_values, modelled as insertion sort over a boolean order. -/
def sortLe {α : Type} (le : α → α → Bool) : List α → List α
  | [] => []
  | x :: xs => insertLe le x (sortLe le xs)

/-! ## CarrierAdapter deduplication before merge (extract methods)

ONEExtractor (and the COSCO, Hamburg and OOCL variants) runs
sort_values('updated_eta') and then drop_duplicates(merge_key);
CMAExtractor (and the ANL variant) runs drop_duplicates(merge_key)
first and sort_values('updated_eta') afterwards. -/

/-- Ascending order on the updated_eta column. -/
def etaLe (a b : ScheduleRecord) : Bool := decide (a.eta ≤ b.eta)

/-- ONEExtractor.extract dedup step:
response_df.sort_values('updated_eta').drop_duplicates(merge_key). -/
def oneExtractDedup (rs : List ScheduleRecord) : List ScheduleRecord :=
  dedupKeyed recKey (sortLe etaLe rs)

/-- CMAExtractor.extract dedup step:
concat(tables).drop_duplicates(merge_key) then
sort_values('updated_eta'). -/
def cmaExtractDedup (rs : List ScheduleRecord) : List ScheduleRecord :=
  sortLe etaLe (dedupKeyed recKey rs)

/-! ## ONEExtractor.call_api and extract: response cache and record
assembly.

A raw remote response either fails to decode as JSON (response.json()
raises) or decodes to an object that may carry a list field of
sailings plus some number of other fields. -/

/-- One sailing entry of the decoded ONE response list, with the raw
field names the source reads. -/
structure OneItem where
  polYdCd : String
  lstPodYdCd : String
  n1stVslNm : String
  polEtdDt : Int
  lstPodEtaDt : Int
deriving DecidableEq

/-- A decoded ONE response body: the optional list field and the number
of other top-level fields (so len(json) is recoverable). -/
structure OneJson where
  listField : Option (List OneItem)
  otherFields : Nat
deriving DecidableEq

/-- len(response.json()) for a decoded body. -/
def OneJson.len (j : OneJson) : Nat :=
  (if j.listField.isSome then 1 else 0) + j.otherFields

/-- A raw remote response: undecodable (response.json() raises
JSONDecodeError) or decoded. -/
inductive OneRaw
  | malformed
  | decoded (j : OneJson)

/-- Python str.rsplit with maxsplit one: split at the last space. -/
def rsplitOnce (s : String) : String × String :=
  let parts := s.splitOn " "
  (String.intercalate " " parts.dropLast, parts.getLastD "")

/-- get_relevant_fields of ONEExtractor.extract for one sailing:
the first five characters of the yard codes, the vessel name and
voyage from the last-space split of n1stVslNm, and the two dates. -/
def oneToRecord (it : OneItem) : ScheduleRecord :=
  { pol := it.polYdCd.take 5, pod := it.lstPodYdCd.take 5,
    vessel := (rsplitOnce it.n1stVslNm).1,
    voyage := (rsplitOnce it.n1stVslNm).2,
    etd := it.polEtdDt, eta := it.lstPodEtaDt }

/-- ONEExtractor.call_api over the prepared query list.  State: the
day's cache directory as an association list from response filename to
stored JSON, and the number of network requests issued.  A filename hit
is read back with no request; a miss issues the request, decodes the
body (raising on malformed JSON), and persists the body only when
len(response.json()) is nonzero. -/
def oneCallApi (net : String → OneRaw) (cache : List (String × OneJson))
    (calls : Nat) :
    List String → Except String (List OneJson × List (String × OneJson) × Nat)
  | [] => Except.ok ([], cache, calls)
  | k :: ks =>
    match cache.lookup k with
    | some j =>
      (oneCallApi net cache calls ks).map (fun r => (j :: r.1, r.2.1, r.2.2))
    | none =>
      match net k with
      | OneRaw.malformed => Except.error "JSONDecodeError"
      | OneRaw.decoded j =>
        let cache2 := if j.len ≠ 0 then cache ++ [(k, j)] else cache
        (oneCallApi net cache2 (calls + 1) ks).map
          (fun r => (j :: r.1, r.2.1, r.2.2))

/-- Records contributed by one stored response in ONEExtractor.extract:
the comprehension guard keeps a response only when its list field is
truthy (present and non-empty). -/
def oneExtractRecords (j : OneJson) : List ScheduleRecord :=
  match j.listField with
  | none => []
  | some items => if items = [] then [] else items.map oneToRecord

/-! ## CMAExtractor location resolution and query planning -/

/-- A CMA location code: the three components of the ActualName field
returned by the PortsWithInlands search. -/
def CmaCode := String × String × String
deriving instance DecidableEq for CmaCode

/-- pod_name computation shared by the CMA constructor: Series.replace
with the port mapping leaves unmapped values unchanged. -/
def cmaPodName (portMapping : List (String × String)) (pod : String) : String :=
  (portMapping.lookup pod).getD pod

/-- Lexicographic sort_values order on the
(pol_name, pod_name) key columns. -/
def pairLe (a b : String × String) : Bool :=
  decide (a.1 < b.1) || (decide (a.1 = b.1) && decide (a.2 ≤ b.2))

/-- One prepared query row of CMAExtractor.reduced_df after dropna:
the two name columns and the two resolved location codes. -/
structure CmaQuery where
  polName : String
  podName : String
  polCode : CmaCode
  podCode : CmaCode
deriving DecidableEq

/-- CMAExtractor.prepare: drop_duplicates on (pol_name, pod_name),
sort_values on the same key, map both names through the resolved
port_id table, and dropna, which removes every row with an unresolved
endpoint. -/
def cmaPrepare (portMapping : List (String × String))
    (portId : String → Option CmaCode) (sheet : List Row) : List CmaQuery :=
  let pairs := sheet.map (fun l => (l.pol, cmaPodName portMapping l.pod))
  let reduced := sortLe pairLe (dedupKeyed id pairs)
  reduced.filterMap (fun pq =>
    match portId pq.1, portId pq.2 with
    | some a, some b =>
      some { polName := pq.1, podName := pq.2, polCode := a, podCode := b }
    | _, _ => none)

/-- Series.unique: first-occurrence order. -/
def uniqueStrings (l : List String) : List String := dedupKeyed id l

/-- The locations list built in CMAExtractor.get_location_id:
list(delay_sheet.pol_name.unique()) + list(delay_sheet.pod_name.unique()).
A name appearing on both sides occurs twice. -/
def cmaLocations (portMapping : List (String × String)) (sheet : List Row) :
    List String :=
  uniqueStrings (sheet.map (fun l => l.pol)) ++
    uniqueStrings (sheet.map (fun l => cmaPodName portMapping l.pod))

/-- Number of location-search requests issued on a cold run of
get_location_id: the dict comprehension issues one request per element
of the locations list. -/
def cmaLocationCalls (portMapping : List (String × String))
    (sheet : List Row) : Nat :=
  (cmaLocations portMapping sheet).length

/-- The port_id dict built on a cold run: one entry per distinct
location name, holding the resolution result (none when the search
returned no match). -/
def cmaPortId (resolve : String → Option CmaCode)
    (portMapping : List (String × String)) (sheet : List Row) :
    List (String × Option CmaCode) :=
  (uniqueStrings (cmaLocations portMapping sheet)).map (fun s => (s, resolve s))

/-- The exception_cases list written to the cma_exceptions artifact:
the port_id keys whose resolution is None. -/
def cmaExceptionCases (resolve : String → Option CmaCode)
    (portMapping : List (String × String)) (sheet : List Row) : List String :=
  (cmaPortId resolve portMapping sheet).filterMap
    (fun kv => if kv.2 = none then some kv.1 else none)

/-- CMAExtractor.get_location_id: when the persisted portID artifact of
the day exists it is read back and no request is issued; otherwise the
mapping is built by querying the location-search endpoint once per
element of the locations list.  Returns the mapping and the number of
network requests. -/
def cmaGetLocationId (resolve : String → Option CmaCode)
    (portMapping : List (String × String))
    (artifact : Option (List (String × Option CmaCode))) (sheet : List Row) :
    List (String × Option CmaCode) × Nat :=
  match artifact with
  | some m => (m, 0)
  | none => (cmaPortId resolve portMapping sheet,
             cmaLocationCalls portMapping sheet)

/-- The decoded body of a response, as seen by call_api after
response.json() succeeded (the malformed case never reaches the cache;
the fallback value is arbitrary and unreachable in the lemmas below). -/
def netJson (net : String → OneRaw) (k : String) : OneJson :=
  match net k with
  | OneRaw.malformed => { listField := none, otherFields := 0 }
  | OneRaw.decoded j => j

/-! ## Concrete inputs used by scenario theorems and witnesses -/

/-- Short constructor for master-sheet rows in concrete scenarios. -/
def mkRow (agent pol pod vessel voyage : String)
    (etd eta bol : Option Int) : Row :=
  { fwdAgent := agent, pol := pol, pod := pod, vessel := vessel,
    voyage := voyage, etdDate := etd, disportEta := eta, bolDate := bol,
    updatedEtd := none, updatedEta := none, delayEtd := none,
    delayEta := none }

/-- The spec scenario shipment line: origin SGSIN, destination CNSHA,
vessel EVER GIVEN, voyage 021E, planned ETD 2024-01-10, planned
disport ETA 2024-01-18, no BOL date. -/
def demoLine : Row :=
  mkRow "AGENT1" "SGSIN" "CNSHA" "EVER GIVEN" "021E"
    (some (daysFromCivil 2024 1 10)) (some (daysFromCivil 2024 1 18)) none

/-- The spec scenario carrier record: same key, etd 2024-01-12,
eta 2024-01-20. -/
def demoRec : ScheduleRecord :=
  { pol := "SGSIN", pod := "CNSHA", vessel := "EVER GIVEN",
    voyage := "021E", etd := daysFromCivil 2024 1 12,
    eta := daysFromCivil 2024 1 20 }

/-- A second sailing for the same join key with the later eta
2024-01-27. -/
def demoRecLate : ScheduleRecord :=
  { demoRec with etd := daysFromCivil 2024 1 19,
                 eta := daysFromCivil 2024 1 27 }

/-- A row owned by a different forwarding agent, for frame scenarios. -/
def demoLineOther : Row :=
  mkRow "AGENT2" "NLRTM" "USNYC" "MAERSK ESSEX" "117W"
    (some (daysFromCivil 2024 2 1)) (some (daysFromCivil 2024 2 20)) none

/-- Forwarding-agent to carrier-family mapping for the scenarios. -/
def demoMapping : List (String × String) :=
  [("AGENT1", "ONE"), ("AGENT2", "CMA")]

/-- Two-row master sheet for the scenarios. -/
def demoMaster : List (Nat × Row) := [(0, demoLine), (1, demoLineOther)]

/-- A carrier pipeline that raises on any input. -/
def demoFailPipe : List (Nat × Row) → Except String (List (Nat × Row)) :=
  fun _ => Except.error "boom"

/-- A carrier pipeline that succeeds and merges demoRec for the ONE
rows of the sheet. -/
def demoOkPipe : List (Nat × Row) → Except String (List (Nat × Row)) :=
  fun m => Except.ok (carrierMergeFold demoMapping "CMA" [] m)

/-- A remote endpoint whose every response decodes to an empty JSON
object (len zero). -/
def demoNetEmpty : String → OneRaw :=
  fun _ => OneRaw.decoded { listField := none, otherFields := 0 }

/-- A remote endpoint whose every response body is not valid JSON. -/
def demoNetMalformed : String → OneRaw := fun _ => OneRaw.malformed

/-- A delay-sheet row whose origin and destination carry the same
port name. -/
def demoLineSamePort : Row :=
  mkRow "AGENT2" "SGSIN" "SGSIN" "EVER GIVEN" "021E" none none none

/-- A location-search stub resolving only SGSIN, for planner
scenarios. -/
def demoPortId : String → Option CmaCode :=
  fun s => if s = "SGSIN" then some ("SINGAPORE", "SINGAPORE, SG", "SG") else none

/-! ## Lemmas about the generic list operations -/

theorem mem_dedupKeyedAux_not_seen {α β : Type} [DecidableEq β] (f : α → β) :
    ∀ (l : List α) (seen : List β) (r : α),
      r ∈ dedupKeyedAux f seen l → f r ∉ seen := by
  intro l
  induction l with
  | nil => intro seen r h; simp [dedupKeyedAux] at h
  | cons x xs ih =>
    intro seen r h
    by_cases hx : f x ∈ seen
    · simp only [dedupKeyedAux, if_pos hx] at h
      exact ih seen r h
    · simp only [dedupKeyedAux, if_neg hx] at h
      rcases List.mem_cons.mp h with h | h
      · subst h; exact hx
      · intro hmem
        exact ih (f x :: seen) r h (List.mem_cons_of_mem _ hmem)

theorem mem_dedupKeyedAux_sub {α β : Type} [DecidableEq β] (f : α → β) :
    ∀ (l : List α) (seen : List β) (r : α),
      r ∈ dedupKeyedAux f seen l → r ∈ l := by
  intro l
  induction l with
  | nil => intro seen r h; simp [dedupKeyedAux] at h
  | cons x xs ih =>
    intro seen r h
    by_cases hx : f x ∈ seen
    · simp only [dedupKeyedAux, if_pos hx] at h
      exact List.mem_cons_of_mem _ (ih seen r h)
    · simp only [dedupKeyedAux, if_neg hx] at h
      rcases List.mem_cons.mp h with h | h
      · subst h; exact List.mem_cons_self _ _
      · exact List.mem_cons_of_mem _ (ih _ r h)

theorem dedupKeyedAux_first {α β : Type} [DecidableEq β] (f : α → β) :
    ∀ (l : List α) (seen : List β) (r : α), r ∈ dedupKeyedAux f seen l →
      l.find? (fun s => decide (f s = f r)) = some r := by
  intro l
  induction l with
  | nil => intro seen r h; simp [dedupKeyedAux] at h
  | cons x xs ih =>
    intro seen r h
    by_cases hx : f x ∈ seen
    · simp only [dedupKeyedAux, if_pos hx] at h
      have hne : f x ≠ f r := by
        intro he
        exact mem_dedupKeyedAux_not_seen f xs seen r h (he ▸ hx)
      rw [List.find?_cons_of_neg _ (by simp [hne])]
      exact ih seen r h
    · simp only [dedupKeyedAux, if_neg hx] at h
      rcases List.mem_cons.mp h with h | h
      · subst h
        exact List.find?_cons_of_pos _ (by simp)
      · have hnotin := mem_dedupKeyedAux_not_seen f xs (f x :: seen) r h
        have hne : f x ≠ f r := by
          intro he
          exact hnotin (he ▸ List.mem_cons_self _ _)
        rw [List.find?_cons_of_neg _ (by simp [hne])]
        exact ih _ r h

theorem dedupKeyedAux_keys_nodup {α β : Type} [DecidableEq β] (f : α → β) :
    ∀ (l : List α) (seen : List β),
      ((dedupKeyedAux f seen l).map f).Nodup := by
  intro l
  induction l with
  | nil => intro seen; simp [dedupKeyedAux]
  | cons x xs ih =>
    intro seen
    by_cases hx : f x ∈ seen
    · simp only [dedupKeyedAux, if_pos hx]; exact ih seen
    · simp only [dedupKeyedAux, if_neg hx, List.map_cons, List.nodup_cons]
      constructor
      · intro hmem
        rcases List.mem_map.mp hmem with ⟨r, hr, hfr⟩
        exact mem_dedupKeyedAux_not_seen f xs _ r hr
          (hfr ▸ List.mem_cons_self _ _)
      · exact ih _

theorem dedupKeyedAux_covers {α β : Type} [DecidableEq β] (f : α → β) :
    ∀ (l : List α) (seen : List β) (s : α), s ∈ l →
      f s ∈ seen ∨ ∃ r ∈ dedupKeyedAux f seen l, f r = f s := by
  intro l
  induction l with
  | nil => intro seen s h; simp at h
  | cons x xs ih =>
    intro seen s h
    by_cases hx : f x ∈ seen
    · simp only [dedupKeyedAux, if_pos hx]
      rcases List.mem_cons.mp h with h | h
      · subst h; exact Or.inl hx
      · exact ih seen s h
    · simp only [dedupKeyedAux, if_neg hx]
      rcases List.mem_cons.mp h with h | h
      · subst h
        exact Or.inr ⟨s, List.mem_cons_self _ _, rfl⟩
      · rcases ih (f x :: seen) s h with hin | ⟨r, hr, hfr⟩
        · rcases List.mem_cons.mp hin with he | hin2
          · exact Or.inr ⟨x, List.mem_cons_self _ _, he.symm⟩
          · exact Or.inl hin2
        · exact Or.inr ⟨r, List.mem_cons_of_mem _ hr, hfr⟩

theorem mem_insertLe {α : Type} (le : α → α → Bool) (x : α) :
    ∀ (l : List α) (a : α), a ∈ insertLe le x l ↔ a = x ∨ a ∈ l := by
  intro l
  induction l with
  | nil => intro a; simp [insertLe]
  | cons y ys ih =>
    intro a
    by_cases h : le x y
    · simp [insertLe, h]
    · simp [insertLe, h, ih a]
      tauto

theorem mem_sortLe {α : Type} (le : α → α → Bool) :
    ∀ (l : List α) (a : α), a ∈ sortLe le l ↔ a ∈ l := by
  intro l
  induction l with
  | nil => intro a; simp [sortLe]
  | cons y ys ih =>
    intro a
    simp [sortLe, mem_insertLe, ih a]

theorem perm_insertLe {α : Type} (le : α → α → Bool) (x : α) :
    ∀ (l : List α), (insertLe le x l).Perm (x :: l) := by
  intro l
  induction l with
  | nil => simp [insertLe]
  | cons y ys ih =>
    by_cases h : le x y
    · simp [insertLe, h]
    · simp only [insertLe, if_neg h]
      exact (ih.cons y).trans (List.Perm.swap x y ys)

theorem perm_sortLe {α : Type} (le : α → α → Bool) :
    ∀ (l : List α), (sortLe le l).Perm l := by
  intro l
  induction l with
  | nil => simp [sortLe]
  | cons y ys ih =>
    exact (perm_insertLe le y (sortLe le ys)).trans (ih.cons y)

theorem pairwise_insertLe {α : Type} (le : α → α → Bool)
    (htot : ∀ a b, le a b = true ∨ le b a = true)
    (htrans : ∀ a b c, le a b = true → le b c = true → le a c = true) :
    ∀ (l : List α) (x : α), l.Pairwise (fun a b => le a b = true) →
      (insertLe le x l).Pairwise (fun a b => le a b = true) := by
  intro l
  induction l with
  | nil => intro x _; simp [insertLe]
  | cons y ys ih =>
    intro x hp
    rcases List.pairwise_cons.mp hp with ⟨hy, hys⟩
    by_cases h : le x y
    · simp only [insertLe, if_pos h]
      refine List.pairwise_cons.mpr ⟨?_, hp⟩
      intro z hz
      rcases List.mem_cons.mp hz with he | hz2
      · subst he; exact h
      · exact htrans x y z h (hy z hz2)
    · simp only [insertLe, if_neg h]
      refine List.pairwise_cons.mpr ⟨?_, ih x hys⟩
      intro z hz
      rcases (mem_insertLe le x (ys) z).mp hz with he | hz2
      · rw [he]
        rcases htot x y with hxy | hyx
        · exact absurd hxy h
        · exact hyx
      · exact hy z hz2

theorem pairwise_sortLe {α : Type} (le : α → α → Bool)
    (htot : ∀ a b, le a b = true ∨ le b a = true)
    (htrans : ∀ a b c, le a b = true → le b c = true → le a c = true) :
    ∀ (l : List α), (sortLe le l).Pairwise (fun a b => le a b = true) := by
  intro l
  induction l with
  | nil => simp [sortLe]
  | cons y ys ih =>
    exact pairwise_insertLe le htot htrans _ y ih

theorem find?_min_of_pairwise {α β : Type} [DecidableEq β]
    (le : α → α → Bool) (htot : ∀ a b, le a b = true ∨ le b a = true)
    (f : α → β) (k : β) :
    ∀ (l : List α), l.Pairwise (fun a b => le a b = true) →
      ∀ r, l.find? (fun s => decide (f s = k)) = some r →
      ∀ s ∈ l, f s = k → le r s = true := by
  intro l
  induction l with
  | nil => intro _ r h; simp at h
  | cons x xs ih =>
    intro hp r hfind s hs hfs
    rcases List.pairwise_cons.mp hp with ⟨hx, hxs⟩
    by_cases hxk : f x = k
    · rw [List.find?_cons_of_pos _ (by simp [hxk])] at hfind
      have hxr : x = r := by injection hfind
      rcases List.mem_cons.mp hs with he | hs2
      · rw [he, ← hxr]
        rcases htot x x with h2 | h2 <;> exact h2
      · rw [← hxr]
        exact hx s hs2
    · rw [List.find?_cons_of_neg _ (by simp [hxk])] at hfind
      rcases List.mem_cons.mp hs with he | hs2
      · subst he; exact absurd hfs hxk
      · exact ih hxs r hfind s hs2 hfs

/-! ## Lemmas about association-list lookup -/

theorem lookup_eq_none_of_keys {α β : Type} [BEq α] [LawfulBEq α] :
    ∀ (l : List (α × β)) (a : α), (∀ p ∈ l, p.1 ≠ a) → l.lookup a = none := by
  intro l
  induction l with
  | nil => intro a _; rfl
  | cons p ps ih =>
    obtain ⟨k, v⟩ := p
    intro a h
    have hne : k ≠ a := h (k, v) (List.mem_cons_self _ _)
    have hb : (a == k) = false := by
      simp [beq_iff_eq]
      exact fun he => hne he.symm
    rw [List.lookup_cons, hb]
    exact ih a (fun q hq => h q (List.mem_cons_of_mem _ hq))

theorem lookup_mem {α β : Type} [BEq α] [LawfulBEq α] :
    ∀ (l : List (α × β)) (a : α) (b : β), l.lookup a = some b → (a, b) ∈ l := by
  intro l
  induction l with
  | nil => intro a b h; simp [List.lookup] at h
  | cons p ps ih =>
    obtain ⟨k, v⟩ := p
    intro a b h
    rw [List.lookup_cons] at h
    by_cases hb : a == k
    · rw [hb] at h
      simp only at h
      injection h with h2
      have hak : a = k := by simpa [beq_iff_eq] using hb
      rw [hak, ← h2]
      exact List.mem_cons_self _ _
    · rw [Bool.not_eq_true] at hb
      rw [hb] at h
      simp only at h
      exact List.mem_cons_of_mem _ (ih a b h)

theorem lookup_append_some {α β : Type} [BEq α] [LawfulBEq α] :
    ∀ (l1 l2 : List (α × β)) (a : α) (b : β),
      l1.lookup a = some b → (l1 ++ l2).lookup a = some b := by
  intro l1
  induction l1 with
  | nil => intro l2 a b h; simp [List.lookup] at h
  | cons p ps ih =>
    obtain ⟨k, v⟩ := p
    intro l2 a b h
    rw [List.lookup_cons] at h
    rw [List.cons_append, List.lookup_cons]
    by_cases hb : a == k
    · rw [hb] at h ⊢; exact h
    · rw [Bool.not_eq_true] at hb
      rw [hb] at h ⊢
      simp only at h ⊢
      exact ih l2 a b h

theorem lookup_append_none {α β : Type} [BEq α] [LawfulBEq α] :
    ∀ (l1 l2 : List (α × β)) (a : α),
      l1.lookup a = none → (l1 ++ l2).lookup a = l2.lookup a := by
  intro l1
  induction l1 with
  | nil => intro l2 a _; rfl
  | cons p ps ih =>
    obtain ⟨k, v⟩ := p
    intro l2 a h
    rw [List.lookup_cons] at h
    rw [List.cons_append, List.lookup_cons]
    by_cases hb : a == k
    · rw [hb] at h; simp at h
    · rw [Bool.not_eq_true] at hb
      rw [hb] at h ⊢
      simp only at h ⊢
      exact ih l2 a h

/-! ## Order facts for the two sort keys -/

theorem etaLe_total : ∀ a b, etaLe a b = true ∨ etaLe b a = true := by
  intro a b
  simp only [etaLe, decide_eq_true_iff]
  omega

theorem etaLe_trans : ∀ a b c, etaLe a b = true → etaLe b c = true →
    etaLe a c = true := by
  intro a b c
  simp only [etaLe, decide_eq_true_iff]
  omega

theorem pairLe_total : ∀ a b, pairLe a b = true ∨ pairLe b a = true := by
  intro a b
  simp only [pairLe, Bool.or_eq_true, Bool.and_eq_true, decide_eq_true_iff]
  rcases lt_trichotomy a.1 b.1 with h | h | h
  · exact Or.inl (Or.inl h)
  · rcases le_total a.2 b.2 with h2 | h2
    · exact Or.inl (Or.inr ⟨h, h2⟩)
    · exact Or.inr (Or.inr ⟨h.symm, h2⟩)
  · exact Or.inr (Or.inl h)

theorem pairLe_trans : ∀ a b c, pairLe a b = true → pairLe b c = true →
    pairLe a c = true := by
  intro a b c
  simp only [pairLe, Bool.or_eq_true, Bool.and_eq_true, decide_eq_true_iff]
  intro h1 h2
  rcases h1 with h1 | ⟨h1e, h1le⟩
  · rcases h2 with h2 | ⟨h2e, _⟩
    · exact Or.inl (h1.trans h2)
    · exact Or.inl (h2e ▸ h1)
  · rcases h2 with h2 | ⟨h2e, h2le⟩
    · exact Or.inl (h1e ▸ h2)
    · exact Or.inr ⟨h1e.trans h2e, h1le.trans h2le⟩

/-! ## Lemmas about the merge and the fold back into the master sheet -/

theorem mem_unique_of_nodup_keys {β : Type} :
    ∀ (l : List (Nat × β)), (l.map Prod.fst).Nodup →
      ∀ (i : Nat) (r s : β), (i, r) ∈ l → (i, s) ∈ l → r = s := by
  intro l
  induction l with
  | nil => intro _ i r s h; simp at h
  | cons p ps ih =>
    intro hnd i r s hr hs
    rw [List.map_cons, List.nodup_cons] at hnd
    rcases hnd with ⟨hp, hps⟩
    rcases List.mem_cons.mp hr with he | hr2
    · rcases List.mem_cons.mp hs with he2 | hs2
      · rw [← he] at he2; injection he2 with _ h2; exact h2.symm
      · exfalso
        apply hp
        rw [← he]
        exact List.mem_map.mpr ⟨(i, s), hs2, rfl⟩
    · rcases List.mem_cons.mp hs with he2 | hs2
      · exfalso
        apply hp
        rw [← he2]
        exact List.mem_map.mpr ⟨(i, r), hr2, rfl⟩
      · exact ih hps i r s hr2 hs2

theorem mergeLeft_mem_idx :
    ∀ (sheet : List (Nat × Row)) (recs : List ScheduleRecord)
      (p : Nat × Row), p ∈ mergeLeft sheet recs → ∃ q ∈ sheet, p.1 = q.1 := by
  intro sheet recs p hp
  rcases List.mem_flatMap.mp hp with ⟨q, hq, hmem⟩
  refine ⟨q, hq, ?_⟩
  rcases hfil : recs.filter (fun rec => decide (recKey rec = rowKey q.2)) with
    _ | ⟨m, ms⟩
  · rw [hfil] at hmem
    simp at hmem
    rw [hmem]
  · rw [hfil] at hmem
    rcases List.mem_map.mp hmem with ⟨rec, _, he⟩
    rw [← he]

theorem filter_key_singleton :
    ∀ (recs : List ScheduleRecord), (recs.map recKey).Nodup →
      ∀ K, recs.filter (fun rec => decide (recKey rec = K)) = [] ∨
        ∃ m, recs.filter (fun rec => decide (recKey rec = K)) = [m] := by
  intro recs
  induction recs with
  | nil => intro _ K; exact Or.inl rfl
  | cons r rs ih =>
    intro hnd K
    rw [List.map_cons, List.nodup_cons] at hnd
    rcases hnd with ⟨hr, hrs⟩
    by_cases hk : recKey r = K
    · right
      refine ⟨r, ?_⟩
      rw [List.filter_cons_of_pos (by simp [hk])]
      have : rs.filter (fun rec => decide (recKey rec = K)) = [] := by
        rw [List.filter_eq_nil_iff]
        intro s hs
        simp only [decide_eq_true_iff]
        intro he
        exact hr (List.mem_map.mpr ⟨s, hs, by rw [he, hk]⟩)
      rw [this]
    · rw [List.filter_cons_of_neg (by simp [hk])]
      exact ih hrs K

theorem mergeLeft_fst :
    ∀ (sheet : List (Nat × Row)) (recs : List ScheduleRecord),
      (recs.map recKey).Nodup →
      (mergeLeft sheet recs).map Prod.fst = sheet.map Prod.fst := by
  intro sheet recs hnd
  induction sheet with
  | nil => rfl
  | cons p ps ih =>
    rw [show mergeLeft (p :: ps) recs =
        (match recs.filter (fun rec => decide (recKey rec = rowKey p.2)) with
         | [] => [(p.1, { p.2 with updatedEtd := none, updatedEta := none })]
         | ms => ms.map (fun rec =>
             (p.1, { p.2 with updatedEtd := some rec.etd,
                              updatedEta := some rec.eta }))) ++
          mergeLeft ps recs from rfl]
    rw [List.map_append, ih, List.map_cons]
    rcases filter_key_singleton recs hnd (rowKey p.2) with hfil | ⟨m, hfil⟩
    · rw [hfil]
      rfl
    · rw [hfil]
      rfl

theorem updateSheet_lookup_untouched :
    ∀ (master sub : List (Nat × Row)) (i : Nat) (r : Row),
      (master.map Prod.fst).Nodup → (i, r) ∈ master → sub.lookup i = none →
      (updateSheet master sub).lookup i = some r := by
  intro master
  induction master with
  | nil => intro sub i r _ h; simp at h
  | cons p ps ih =>
    obtain ⟨j, s⟩ := p
    intro sub i r hnd hmem hsub
    rw [List.map_cons, List.nodup_cons] at hnd
    rcases hnd with ⟨hj, hps⟩
    by_cases hij : i = j
    · have hrs : r = s := by
        rcases List.mem_cons.mp hmem with he | h2
        · exact congrArg Prod.snd he
        · exfalso
          apply hj
          rw [← hij]
          exact List.mem_map.mpr ⟨(i, r), h2, rfl⟩
      rw [show updateSheet ((j, s) :: ps) sub =
          (match sub.lookup j with
           | some t => (j, updateRow s t)
           | none => (j, s)) :: updateSheet ps sub from rfl]
      rw [← hij, hsub]
      simp only [List.lookup_cons, beq_self_eq_true]
      rw [hrs]
    · rw [show updateSheet ((j, s) :: ps) sub =
          (match sub.lookup j with
           | some t => (j, updateRow s t)
           | none => (j, s)) :: updateSheet ps sub from rfl]
      have hmem2 : (i, r) ∈ ps := by
        rcases List.mem_cons.mp hmem with he | h2
        · exfalso; injection he with h3 _; exact hij h3
        · exact h2
      have hb : (i == j) = false := by simp [beq_iff_eq, hij]
      rcases hsubj : sub.lookup j with _ | t
      · rw [List.lookup_cons, hb]
        exact ih sub i r hps hmem2 hsub
      · rw [List.lookup_cons, hb]
        exact ih sub i r hps hmem2 hsub

/-! ## Lemmas about the response cache runs of call_api -/

theorem lookup_map_netJson (net : String → OneRaw) :
    ∀ (keys : List String) (k : String), k ∈ keys →
      (keys.map (fun k2 => (k2, netJson net k2))).lookup k =
        some (netJson net k) := by
  intro keys
  induction keys with
  | nil => intro k h; simp at h
  | cons k2 ks ih =>
    intro k h
    by_cases he : k = k2
    · have hb : (k == k2) = true := by simp [beq_iff_eq, he]
      simp only [List.map_cons, List.lookup_cons, hb]
      rw [he]
    · have hb : (k == k2) = false := by simp [beq_iff_eq, he]
      simp only [List.map_cons, List.lookup_cons, hb]
      rcases List.mem_cons.mp h with h2 | h2
      · exact absurd h2 he
      · exact ih k h2

theorem oneCallApi_all_cached (net : String → OneRaw) :
    ∀ (keys : List String) (cache : List (String × OneJson)) (calls : Nat),
      (∀ k ∈ keys, (cache.lookup k).isSome) →
      oneCallApi net cache calls keys =
        Except.ok
          (keys.map (fun k =>
            (cache.lookup k).getD { listField := none, otherFields := 0 }),
           cache, calls) := by
  intro keys
  induction keys with
  | nil => intro cache calls _; rfl
  | cons k ks ih =>
    intro cache calls h
    have hk := h k (List.mem_cons_self _ _)
    rcases hlk : cache.lookup k with _ | j
    · rw [hlk] at hk; simp at hk
    · simp only [oneCallApi, hlk]
      rw [ih cache calls (fun k2 h2 => h k2 (List.mem_cons_of_mem _ h2))]
      simp only [Except.map, List.map_cons, hlk]
      rfl

theorem oneCallApi_cold_run (net : String → OneRaw) :
    ∀ (keys : List String) (cache : List (String × OneJson)) (calls : Nat),
      keys.Nodup →
      (∀ k ∈ keys, cache.lookup k = none) →
      (∀ k ∈ keys, ∃ j, net k = OneRaw.decoded j ∧ j.len ≠ 0) →
      oneCallApi net cache calls keys =
        Except.ok
          (keys.map (netJson net),
           cache ++ keys.map (fun k => (k, netJson net k)),
           calls + keys.length) := by
  intro keys
  induction keys with
  | nil => intro cache calls _ _ _; simp [oneCallApi]
  | cons k ks ih =>
    intro cache calls hnd hnone hnet
    rcases List.nodup_cons.mp hnd with ⟨hk, hks⟩
    have hlk := hnone k (List.mem_cons_self _ _)
    rcases hnet k (List.mem_cons_self _ _) with ⟨j, hj, hlen⟩
    have hnj : netJson net k = j := by simp [netJson, hj]
    simp only [oneCallApi, hlk, hj, if_pos hlen]
    have hnone2 : ∀ k2 ∈ ks, (cache ++ [(k, j)]).lookup k2 = none := by
      intro k2 h2
      rw [lookup_append_none _ _ _ (hnone k2 (List.mem_cons_of_mem _ h2))]
      have hne : k2 ≠ k := fun he => hk (he ▸ h2)
      have hb : (k2 == k) = false := by simp [beq_iff_eq, hne]
      simp [List.lookup_cons, hb]
    rw [ih (cache ++ [(k, j)]) (calls + 1) hks hnone2
        (fun k2 h2 => hnet k2 (List.mem_cons_of_mem _ h2))]
    simp only [Except.map, List.map_cons, hnj]
    rw [List.append_assoc]
    simp only [List.singleton_append, List.length_cons]
    have : calls + 1 + ks.length = calls + (ks.length + 1) := by omega
    rw [this]

/-! ## Claim theorems -/

/-- C1, counterexample.  The orchestrator does not catch a carrier
failure: with two enabled carriers where the first pipeline raises and
the second would succeed, the whole run evaluates to the propagated
exception, so no final report is produced and the second carrier's data
never appears, contrary to the claim. -/
theorem claim_C1_counterexample :
    runCarriers [(true, demoFailPipe), (true, demoOkPipe)] demoMaster =
      Except.error "boom" := rfl

/-- C1, amended.  DelayReport.run and the main block contain no
exception handler: an exception in an enabled carrier's pipeline
propagates immediately, skipping every later carrier, so the final
report is reached only when every enabled carrier succeeds; a disabled
carrier is skipped with the master table unchanged. -/
theorem claim_C1_amended :
    (∀ (p : List (Nat × Row) → Except String (List (Nat × Row)))
       (cs : List (Bool × (List (Nat × Row) → Except String (List (Nat × Row)))))
       (m : List (Nat × Row)) (e : String),
       p m = Except.error e →
       runCarriers ((true, p) :: cs) m = Except.error e) ∧
    (∀ (p : List (Nat × Row) → Except String (List (Nat × Row)))
       (cs : List (Bool × (List (Nat × Row) → Except String (List (Nat × Row)))))
       (m m2 : List (Nat × Row)),
       p m = Except.ok m2 →
       runCarriers ((true, p) :: cs) m = runCarriers cs m2) ∧
    (∀ (p : List (Nat × Row) → Except String (List (Nat × Row)))
       (cs : List (Bool × (List (Nat × Row) → Except String (List (Nat × Row)))))
       (m : List (Nat × Row)),
       runCarriers ((false, p) :: cs) m = runCarriers cs m) := by
  refine ⟨?_, ?_, ?_⟩
  · intro p cs m e h
    simp only [runCarriers, runCarrier, if_pos rfl, h]
    rfl
  · intro p cs m m2 h
    simp only [runCarriers, runCarrier, if_pos rfl, h]
    rfl
  · intro p cs m
    simp only [runCarriers, runCarrier]
    rfl

/-- C1, witness for the amended claim at concrete inputs: a successful
enabled carrier followed by a disabled one yields the folded report. -/
theorem claim_C1_amended_witness :
    runCarriers [(true, demoOkPipe), (false, demoFailPipe)] demoMaster =
      Except.ok (carrierMergeFold demoMapping "CMA" [] demoMaster) := by
  rw [claim_C1_amended.2.1 demoOkPipe _ demoMaster _ rfl, claim_C1_amended.2.2]
  rfl

/-- C2.  calculate_deltas writes, for each row, delay-days-ETD equal to
updated_etd minus ETD Date in whole days when both are present (same
for ETA against Disport ETA), and a null delta whenever the updated
date is missing; and on the spec scenario (planned ETD 2024-01-10
merged with a record whose etd is 2024-01-12) the merged row gets
resolved etd 2024-01-12 and delay-days-ETD 2. -/
theorem claim_C2 :
    (∀ (r : Row) (u p : Int), r.updatedEtd = some u → r.etdDate = some p →
       (calculateDeltas r).delayEtd = some (u - p)) ∧
    (∀ (r : Row) (u p : Int), r.updatedEta = some u → r.disportEta = some p →
       (calculateDeltas r).delayEta = some (u - p)) ∧
    (∀ r : Row, r.updatedEtd = none → (calculateDeltas r).delayEtd = none) ∧
    (∀ r : Row, r.updatedEta = none → (calculateDeltas r).delayEta = none) ∧
    ((mergeLeft [(0, demoLine)] [demoRec]).map
        (fun q => ((calculateDeltas q.2).delayEtd, q.2.updatedEtd)) =
      [(some 2, some (daysFromCivil 2024 1 12))]) := by
  refine ⟨?_, ?_, ?_, ?_, ?_⟩
  · intro r u p hu hp; simp [calculateDeltas, calcDelta, hu, hp]
  · intro r u p hu hp; simp [calculateDeltas, calcDelta, hu, hp]
  · intro r hu; simp [calculateDeltas, calcDelta, hu]
  · intro r hu; simp [calculateDeltas, calcDelta, hu]
  · decide

/-- C2, witness: the general clause applied to the scenario row. -/
theorem claim_C2_witness :
    (calculateDeltas
      { demoLine with updatedEtd := some (daysFromCivil 2024 1 12) }).delayEtd =
      some 2 := by
  have h := claim_C2.1
    { demoLine with updatedEtd := some (daysFromCivil 2024 1 12) }
    (daysFromCivil 2024 1 12) (daysFromCivil 2024 1 10) rfl rfl
  rw [h]
  decide

/-- C3.  With the mask_date_if_bol_present flag enabled, every row with
a BOL Date ends with both delay columns zero and both updated dates
equal to the planned ETD Date and Disport ETA, regardless of the values
the adapters left in the row. -/
theorem claim_C3 :
    ∀ (flag : Bool) (r : Row) (b : Int), flag = true → r.bolDate = some b →
      (maskBol flag r).delayEtd = some 0 ∧
      (maskBol flag r).delayEta = some 0 ∧
      (maskBol flag r).updatedEtd = r.etdDate ∧
      (maskBol flag r).updatedEta = r.disportEta := by
  intro flag r b hflag hb
  subst hflag
  simp [maskBol, hb]

/-- C3, witness: the masking applied to a concrete already-shipped row
whose adapter result disagreed with the planned dates. -/
theorem claim_C3_witness :
    (maskBol true
      { demoLine with bolDate := some (daysFromCivil 2024 1 11),
                      updatedEtd := some (daysFromCivil 2024 1 12),
                      delayEtd := some 2 }).delayEtd = some 0 := by
  exact (claim_C3 true
    { demoLine with bolDate := some (daysFromCivil 2024 1 11),
                    updatedEtd := some (daysFromCivil 2024 1 12),
                    delayEtd := some 2 }
    (daysFromCivil 2024 1 11) rfl rfl).1

/-- C4, counterexample.  CMAExtractor.extract (and the ANL variant)
deduplicates before sorting: with two sailings for the same join key
arriving in the order (eta 2024-01-27, eta 2024-01-20), the record kept
is the later one, not the soonest as the claim states for every
carrier adapter. -/
theorem claim_C4_counterexample :
    cmaExtractDedup [demoRecLate, demoRec] = [demoRecLate] ∧
    demoRec.eta < demoRecLate.eta := by decide

/-- C4, amended.  The adapters that sort by updated_eta before
deduplicating (ONE, COSCO, Hamburg, OOCL) keep, for each composite
key, a record of chronologically soonest eta; CMAExtractor and the ANL
variant deduplicate first and keep the first-encountered record of each
key regardless of its eta, sorting afterwards. -/
theorem claim_C4_amended :
    (∀ (rs : List ScheduleRecord) (r : ScheduleRecord),
       r ∈ oneExtractDedup rs →
       r ∈ rs ∧ ∀ s ∈ rs, recKey s = recKey r → r.eta ≤ s.eta) ∧
    (∀ (rs : List ScheduleRecord) (r : ScheduleRecord),
       r ∈ cmaExtractDedup rs →
       rs.find? (fun s => decide (recKey s = recKey r)) = some r) := by
  constructor
  · intro rs r h
    have hsorted : r ∈ sortLe etaLe rs :=
      mem_dedupKeyedAux_sub recKey _ [] r h
    refine ⟨(mem_sortLe etaLe rs r).mp hsorted, ?_⟩
    intro s hs hkey
    have hfind := dedupKeyedAux_first recKey (sortLe etaLe rs) [] r h
    have hpw := pairwise_sortLe etaLe etaLe_total etaLe_trans rs
    have hmin := find?_min_of_pairwise etaLe etaLe_total recKey (recKey r)
      (sortLe etaLe rs) hpw r hfind s ((mem_sortLe etaLe rs s).mpr hs) hkey
    simpa [etaLe] using hmin
  · intro rs r h
    have hd : r ∈ dedupKeyed recKey rs :=
      (mem_sortLe etaLe (dedupKeyed recKey rs) r).mp h
    exact dedupKeyedAux_first recKey rs [] r hd

/-- C4, witness for the amended claim: in the sort-then-dedup adapters
the record kept for the scenario key is the soonest-eta one. -/
theorem claim_C4_witness :
    demoRec ∈ oneExtractDedup [demoRecLate, demoRec] ∧
    demoRec.eta ≤ demoRecLate.eta := by
  refine ⟨by decide, ?_⟩
  exact (claim_C4_amended.1 [demoRecLate, demoRec] demoRec (by decide)).2
    demoRecLate (by decide) (by decide)

/-- C5, counterexample.  An empty remote response is not persisted, so
re-running call_api on the same day against the unchanged (still empty)
cache directory issues one network request again, not zero: the first
run returns cache [] and one call, and the identical second run
therefore also performs one call. -/
theorem claim_C5_counterexample :
    (oneCallApi demoNetEmpty [] 0 ["ONE SGSIN-CNSHA.json"] =
      Except.ok ([{ listField := none, otherFields := 0 }], [], 1)) ∧
    (oneCallApi demoNetEmpty [] 0 ["ONE SGSIN-CNSHA.json"] ≠
      Except.ok ([{ listField := none, otherFields := 0 }], [], 0)) := by
  refine ⟨rfl, ?_⟩
  intro h
  rw [show oneCallApi demoNetEmpty [] 0 ["ONE SGSIN-CNSHA.json"] =
      Except.ok ([{ listField := none, otherFields := 0 }], [], 1) from rfl] at h
  simp at h

/-- C5, amended.  A query whose response file exists in the day's cache
is answered from the file with no network request; and when a run
starts from an empty cache over distinct queries whose responses are
all decodable and non-empty, every response is persisted, and
re-running over the unchanged cache issues zero network requests and
returns the identical response list. -/
theorem claim_C5_amended :
    (∀ (net : String → OneRaw) (cache : List (String × OneJson))
       (calls : Nat) (key : String) (j : OneJson),
       cache.lookup key = some j →
       oneCallApi net cache calls [key] = Except.ok ([j], cache, calls)) ∧
    (∀ (net : String → OneRaw) (keys : List String), keys.Nodup →
       (∀ k ∈ keys, ∃ j, net k = OneRaw.decoded j ∧ j.len ≠ 0) →
       ∃ rs cache1,
         oneCallApi net [] 0 keys = Except.ok (rs, cache1, keys.length) ∧
         oneCallApi net cache1 0 keys = Except.ok (rs, cache1, 0)) := by
  constructor
  · intro net cache calls key j h
    simp only [oneCallApi, h]
    rfl
  · intro net keys hnd hnet
    refine ⟨keys.map (netJson net), keys.map (fun k => (k, netJson net k)),
      ?_, ?_⟩
    · have h := oneCallApi_cold_run net keys [] 0 hnd
        (fun k _ => rfl) hnet
      simpa using h
    · have hcached : ∀ k ∈ keys,
          ((keys.map (fun k2 => (k2, netJson net k2))).lookup k).isSome := by
        intro k hk
        rw [lookup_map_netJson net keys k hk]
        rfl
      rw [oneCallApi_all_cached net keys _ 0 hcached]
      have hresp : keys.map (fun k =>
          ((keys.map (fun k2 => (k2, netJson net k2))).lookup k).getD
            { listField := none, otherFields := 0 }) =
          keys.map (netJson net) := by
        apply List.map_congr_left
        intro k hk
        rw [lookup_map_netJson net keys k hk]
        rfl
      rw [hresp]

/-- C5, witness for the amended claim: a cached response file is
returned with zero additional requests. -/
theorem claim_C5_witness :
    oneCallApi demoNetEmpty
      [("ONE SGSIN-CNSHA.json", { listField := some [], otherFields := 1 })] 0
      ["ONE SGSIN-CNSHA.json"] =
      Except.ok ([{ listField := some [], otherFields := 1 }],
        [("ONE SGSIN-CNSHA.json", { listField := some [], otherFields := 1 })],
        0) := by
  exact claim_C5_amended.1 demoNetEmpty _ 0 _ _ rfl

/-- C6, counterexample.  A malformed (undecodable) remote response does
not yield an empty record set: response.json() raises and the exception
propagates out of call_api. -/
theorem claim_C6_counterexample :
    oneCallApi demoNetMalformed [] 0 ["ONE SGSIN-CNSHA.json"] =
      Except.error "JSONDecodeError" := rfl

/-- C6, amended.  An empty (decodable, length-zero) response is
returned without being persisted to the cache, so the same query is
fetched again on a later day, and it contributes no schedule records;
a malformed response instead raises from response.json() and the
exception propagates out of the adapter. -/
theorem claim_C6_amended :
    (∀ (net : String → OneRaw) (cache : List (String × OneJson))
       (calls : Nat) (key : String) (j : OneJson),
       cache.lookup key = none → net key = OneRaw.decoded j → j.len = 0 →
       oneCallApi net cache calls [key] =
         Except.ok ([j], cache, calls + 1) ∧
       oneExtractRecords j = []) ∧
    (∀ (net : String → OneRaw) (cache : List (String × OneJson))
       (calls : Nat) (key : String),
       cache.lookup key = none → net key = OneRaw.malformed →
       oneCallApi net cache calls [key] = Except.error "JSONDecodeError") := by
  constructor
  · intro net cache calls key j hcache hnet hlen
    constructor
    · simp only [oneCallApi, hcache, hnet, hlen]
      rfl
    · rcases hl : j.listField with _ | items
      · simp [oneExtractRecords, hl]
      · exfalso
        rw [OneJson.len, hl] at hlen
        simp at hlen
  · intro net cache calls key hcache hnet
    simp only [oneCallApi, hcache, hnet]

/-- C6, witness for the amended claim: an always-empty endpoint yields
one fetched empty body, an unchanged cache, and no extracted records. -/
theorem claim_C6_witness :
    oneCallApi demoNetEmpty [] 0 ["ONE SGSIN-CNSHA.json"] =
      Except.ok ([{ listField := none, otherFields := 0 }], [], 1) ∧
    oneExtractRecords { listField := none, otherFields := 0 } = [] := by
  exact claim_C6_amended.1 demoNetEmpty [] 0 "ONE SGSIN-CNSHA.json"
    { listField := none, otherFields := 0 } rfl rfl rfl

theorem cmaPrepare_shape (portId : String → Option CmaCode)
    (pq : String × String) (q : CmaQuery) :
    (match portId pq.1, portId pq.2 with
     | some a, some b =>
       some { polName := pq.1, podName := pq.2, polCode := a, podCode := b }
     | _, _ => (none : Option CmaQuery)) = some q →
    q.polName = pq.1 ∧ q.podName = pq.2 ∧
    portId pq.1 = some q.polCode ∧ portId pq.2 = some q.podCode := by
  intro h
  rcases hpol : portId pq.1 with _ | a <;> rw [hpol] at h
  · simp at h
  · rcases hpod : portId pq.2 with _ | b <;> rw [hpod] at h
    · simp at h
    · simp only [Option.some.injEq] at h
      rw [← h]
      exact ⟨rfl, rfl, rfl, rfl⟩

theorem mem_uniqueStrings (l : List String) (a : String) :
    a ∈ uniqueStrings l ↔ a ∈ l := by
  constructor
  · exact fun h => mem_dedupKeyedAux_sub id l [] a h
  · intro h
    rcases dedupKeyedAux_covers id l [] a h with h2 | ⟨r, hr, hre⟩
    · simp at h2
    · rwa [show r = a from hre] at hr

/-- C7.  The CMA query planner's output is sorted by origin then
destination, duplicate-free on the (origin, destination) key, contains
a query only when both endpoints resolved to location codes, and covers
every sheet row whose two endpoints both resolved. -/
theorem claim_C7 :
    ∀ (pm : List (String × String)) (portId : String → Option CmaCode)
      (sheet : List Row),
      ((cmaPrepare pm portId sheet).Pairwise
        (fun a b => pairLe (a.polName, a.podName) (b.polName, b.podName) = true)) ∧
      (((cmaPrepare pm portId sheet).map
        (fun q => (q.polName, q.podName))).Nodup) ∧
      (∀ q ∈ cmaPrepare pm portId sheet,
        portId q.polName = some q.polCode ∧ portId q.podName = some q.podCode) ∧
      (∀ l ∈ sheet, (portId l.pol).isSome →
        (portId (cmaPodName pm l.pod)).isSome →
        ∃ q ∈ cmaPrepare pm portId sheet,
          q.polName = l.pol ∧ q.podName = cmaPodName pm l.pod) := by
  intro pm portId sheet
  refine ⟨?_, ?_, ?_, ?_⟩
  · simp only [cmaPrepare]
    rw [List.pairwise_filterMap]
    refine (pairwise_sortLe pairLe pairLe_total pairLe_trans _).imp ?_
    intro pq1 pq2 hle q1 hq1 q2 hq2
    obtain ⟨h1a, h1b, _, _⟩ :=
      cmaPrepare_shape portId pq1 q1 (Option.mem_def.mp hq1)
    obtain ⟨h2a, h2b, _, _⟩ :=
      cmaPrepare_shape portId pq2 q2 (Option.mem_def.mp hq2)
    rw [h1a, h1b, h2a, h2b]
    exact hle
  · simp only [cmaPrepare]
    have h1 : (dedupKeyed id
        (sheet.map (fun l => (l.pol, cmaPodName pm l.pod)))).Nodup := by
      have h2 := dedupKeyedAux_keys_nodup id
        (sheet.map (fun l => (l.pol, cmaPodName pm l.pod))) []
      simpa [dedupKeyed] using h2
    have hnd : (sortLe pairLe (dedupKeyed id
        (sheet.map (fun l => (l.pol, cmaPodName pm l.pod))))).Nodup :=
      (perm_sortLe pairLe _).symm.nodup h1
    show List.Pairwise (fun a b => a ≠ b) _
    rw [List.pairwise_map, List.pairwise_filterMap]
    refine hnd.imp ?_
    intro pq1 pq2 hne q1 hq1 q2 hq2
    obtain ⟨h1a, h1b, _, _⟩ :=
      cmaPrepare_shape portId pq1 q1 (Option.mem_def.mp hq1)
    obtain ⟨h2a, h2b, _, _⟩ :=
      cmaPrepare_shape portId pq2 q2 (Option.mem_def.mp hq2)
    rw [h1a, h1b, h2a, h2b]
    intro he
    exact hne he
  · intro q hq
    simp only [cmaPrepare] at hq
    rcases List.mem_filterMap.mp hq with ⟨pq, _, hf⟩
    obtain ⟨h1, h2, h3, h4⟩ := cmaPrepare_shape portId pq q hf
    constructor
    · rw [h1]; exact h3
    · rw [h2]; exact h4
  · intro l hl hpol hpod
    obtain ⟨a, ha⟩ := Option.isSome_iff_exists.mp hpol
    obtain ⟨b, hb⟩ := Option.isSome_iff_exists.mp hpod
    have hpairmem : (l.pol, cmaPodName pm l.pod) ∈
        sheet.map (fun l2 => (l2.pol, cmaPodName pm l2.pod)) :=
      List.mem_map.mpr ⟨l, hl, rfl⟩
    have hdd : (l.pol, cmaPodName pm l.pod) ∈ dedupKeyed id
        (sheet.map (fun l2 => (l2.pol, cmaPodName pm l2.pod))) := by
      rcases dedupKeyedAux_covers id _ [] _ hpairmem with h2 | ⟨r, hr, hre⟩
      · simp at h2
      · rwa [show r = (l.pol, cmaPodName pm l.pod) from hre] at hr
    have hsorted := (mem_sortLe pairLe _ _).mpr hdd
    refine ⟨{ polName := l.pol, podName := cmaPodName pm l.pod,
              polCode := a, podCode := b }, ?_, rfl, rfl⟩
    simp only [cmaPrepare]
    apply List.mem_filterMap.mpr
    refine ⟨(l.pol, cmaPodName pm l.pod), hsorted, ?_⟩
    simp [ha, hb]

/-- C7, witness: a sheet whose single row resolves on both endpoints is
covered by the planner output. -/
theorem claim_C7_witness :
    ∃ q ∈ cmaPrepare [] demoPortId [demoLineSamePort],
      q.polName = demoLineSamePort.pol ∧
      q.podName = cmaPodName [] demoLineSamePort.pod := by
  exact (claim_C7 [] demoPortId [demoLineSamePort]).2.2.2 demoLineSamePort
    (by decide) (by decide) (by decide)

/-- C8, counterexample.  With a single line whose origin and
destination carry the same port name, the locations list of
get_location_id holds that name twice (once from the origin uniques,
once from the destination uniques) and the endpoint is queried twice
for one unique port name, contradicting exactly-once. -/
theorem claim_C8_counterexample :
    cmaLocationCalls [] [demoLineSamePort] = 2 ∧
    (uniqueStrings ([demoLineSamePort].map (fun l => l.pol) ++
      [demoLineSamePort].map (fun l => cmaPodName [] l.pod))).length = 1 := by
  decide

/-- C8, amended.  On a cold run the location-search endpoint is queried
once per element of unique origin names concatenated with unique
destination names (so a port appearing on both sides is queried twice);
every name resolving to nothing is recorded in the exceptions list,
without raising; and when the persisted portID artifact of the day
exists it is read back with zero network requests. -/
theorem claim_C8_amended :
    (∀ (pm : List (String × String)) (sheet : List Row),
       cmaLocationCalls pm sheet =
         (uniqueStrings (sheet.map (fun l => l.pol))).length +
         (uniqueStrings (sheet.map (fun l => cmaPodName pm l.pod))).length) ∧
    (∀ (resolve : String → Option CmaCode) (pm : List (String × String))
       (sheet : List Row) (name : String),
       name ∈ cmaExceptionCases resolve pm sheet ↔
         name ∈ cmaLocations pm sheet ∧ resolve name = none) ∧
    (∀ (resolve : String → Option CmaCode) (pm : List (String × String))
       (m : List (String × Option CmaCode)) (sheet : List Row),
       cmaGetLocationId resolve pm (some m) sheet = (m, 0)) := by
  refine ⟨?_, ?_, ?_⟩
  · intro pm sheet
    simp [cmaLocationCalls, cmaLocations]
  · intro resolve pm sheet name
    constructor
    · intro h
      rcases List.mem_filterMap.mp h with ⟨kv, hkv, hif⟩
      rcases List.mem_map.mp hkv with ⟨s, hs, hse⟩
      rw [← hse] at hif
      by_cases hres : resolve s = none
      · rw [if_pos (by simpa using hres)] at hif
        injection hif with he
        subst he
        exact ⟨(mem_uniqueStrings _ _).mp hs, hres⟩
      · rw [if_neg (by simpa using hres)] at hif
        simp at hif
    · rintro ⟨hmem, hres⟩
      apply List.mem_filterMap.mpr
      refine ⟨(name, resolve name),
        List.mem_map.mpr ⟨name, (mem_uniqueStrings _ _).mpr hmem, rfl⟩, ?_⟩
      rw [hres]
      simp
  · intro resolve pm m sheet
    rfl

/-- C9.  Folding one carrier's merged results into the master table
via DataFrame.update leaves every row whose forwarding-agent tag does
not map to that carrier exactly as it was. -/
theorem claim_C9 :
    ∀ (mapping : List (String × String)) (carrier : String)
      (recs : List ScheduleRecord) (master : List (Nat × Row))
      (i : Nat) (r : Row),
      (master.map Prod.fst).Nodup → (i, r) ∈ master →
      mapping.lookup r.fwdAgent ≠ some carrier →
      (carrierMergeFold mapping carrier recs master).lookup i = some r := by
  intro mapping carrier recs master i r hnd hmem hagent
  have hnone : (mergeLeft (carrierFilter mapping carrier master) recs).lookup i
      = none := by
    apply lookup_eq_none_of_keys
    intro p hp he
    rcases mergeLeft_mem_idx _ _ p hp with ⟨q, hq, hpq⟩
    rcases List.mem_filter.mp hq with ⟨hqm, hqc⟩
    have hqc2 : mapping.lookup q.2.fwdAgent = some carrier :=
      of_decide_eq_true hqc
    have hqi : q.1 = i := by rw [← hpq, he]
    have hq2 : (i, q.2) ∈ master := by
      rw [← hqi]
      exact hqm
    have := mem_unique_of_nodup_keys master hnd i r q.2 hmem hq2
    rw [← this] at hqc2
    exact hagent hqc2
  exact updateSheet_lookup_untouched master _ i r hnd hmem hnone

/-- C9, witness: merging ONE records into the two-carrier demo master
sheet leaves the CMA-owned row untouched. -/
theorem claim_C9_witness :
    (carrierMergeFold demoMapping "ONE" [demoRec] demoMaster).lookup 1 =
      some demoLineOther := by
  exact claim_C9 demoMapping "ONE" [demoRec] demoMaster 1 demoLineOther
    (by decide) (by decide) (by decide)

/-- C10.  When the deduplicated record set has at most one record per
composite key, the left merge keeps exactly the original row indices of
the carrier's filtered delay sheet, in order, with no row added or
dropped. -/
theorem claim_C10 :
    ∀ (sheet : List (Nat × Row)) (recs : List ScheduleRecord),
      (recs.map recKey).Nodup →
      (mergeLeft sheet recs).map Prod.fst = sheet.map Prod.fst := by
  intro sheet recs h
  exact mergeLeft_fst sheet recs h

/-- C10, witness: the scenario merge keeps indices 0 and 1 exactly. -/
theorem claim_C10_witness :
    (mergeLeft [(0, demoLine), (1, demoLineOther)] [demoRec]).map Prod.fst =
      [0, 1] := by
  rw [claim_C10 [(0, demoLine), (1, demoLineOther)] [demoRec] (by decide)]
  rfl
